import Mathlib

/-!
# Verification of the Issue Sheet Generator (EWiz `Project No.pushbutton/script.py`)

Shallow embedding of the revision-matrix compiler: sheet discovery and
filtering, sheet-revision association, revision filtering and sorting,
revision-label resolution, chunk partitioning and grid rendering.

Machine values written to spreadsheet cells are modelled by `CellValue`
(a Python value that is either a string or a non-negative integer).
Model element ids (`ElementId`) are modelled as `Nat`.
-/

namespace EWiz

/-- Value written into a spreadsheet cell, or used as a Python sort key:
either a string (revision numbers, labels, names) or a number
(sequence numbers, date components). -/
inductive CellValue where
  | str : String → CellValue
  | num : Nat → CellValue
deriving DecidableEq, Repr

/-- Lexicographic comparison of character lists by character ordinal
(Python-2 / ordinal string comparison). -/
def strListLE : List Char → List Char → Bool
  | [], _ => true
  | _ :: _, [] => false
  | a :: as, b :: bs =>
    if a.toNat < b.toNat then true
    else if b.toNat < a.toNat then false
    else strListLE as bs

/-- Ordinal string comparison. -/
def strLE (a b : String) : Bool := strListLE a.toList b.toList

/-- Python-2 comparison on the values that occur as sort keys: numbers
compare among themselves, strings compare lexicographically, and every
number compares below every string (CPython 2 orders unequal types by
type name, and "int" < "str"). -/
def cvLE : CellValue → CellValue → Bool
  | CellValue.num a, CellValue.num b => decide (a ≤ b)
  | CellValue.num _, CellValue.str _ => true
  | CellValue.str _, CellValue.num _ => false
  | CellValue.str a, CellValue.str b => strLE a b

/-- A revision element (`OST_Revisions`). `revisionNumber` is `none` when
the API object lacks the duck-typed `RevisionNumber` attribute.
`revisionDate` models the already-resolved short date string
(`raw.ToShortDateString()` or `str(raw).strip()`). -/
structure Revision where
  id : Nat
  revisionNumber : Option String
  sequenceNumber : Nat
  numberingSequenceId : Nat
  revisionDate : String
  description : String
deriving DecidableEq, Repr

/-- A revision cloud (`OST_RevisionClouds`): owner view and target revision. -/
structure Cloud where
  ownerViewId : Nat
  revisionId : Nat
deriving DecidableEq, Repr

/-- Numeric numbering-sequence settings (`GetNumericRevisionSettings`):
`pfx` is the `Prefix` string, `sfx` the `Suffix` string (after the
`or ''` defaulting in the source). -/
structure NumericSettings where
  pfx : String
  sfx : String
  startNumber : Nat
  minimumDigits : Nat
deriving DecidableEq, Repr

/-- Numbering-sequence type tag (`RevisionNumberType`). -/
inductive RevNumberType where
  | Numeric
  | Alphanumeric
deriving DecidableEq, Repr

/-- A revision numbering sequence element. -/
structure NumberingSequence where
  id : Nat
  numberType : RevNumberType
  settings : NumericSettings
deriving DecidableEq, Repr

/-- A sheet (`ViewSheet`). `appearsInSheetList` is the result of
`LookupParameter("Appears In Sheet List")` (`none` = parameter missing)
followed by `AsInteger()`. `viewportViewIds` holds, for every viewport
returned by `GetAllViewports()`, the `ViewId` of the placed view.
`perSheetRevNumbers` tabulates `GetRevisionNumberOnSheet` (absent entry
models the API's empty-string answer). `textParams` tabulates
`LookupParameter(name).AsString()` for the drawing-number parameters
(absent entry = parameter missing or null string). -/
structure Sheet where
  id : Nat
  name : String
  sheetNumber : String
  appearsInSheetList : Option Int
  viewportViewIds : List Nat
  additionalRevisionIds : List Nat
  perSheetRevNumbers : List (Nat × String)
  textParams : List (String × String)
deriving DecidableEq, Repr

/-- The document snapshot (`doc` plus the three collector results).
`projectParams` tabulates `doc.ProjectInformation.LookupParameter(..).AsString()`. -/
structure Model where
  sheets : List Sheet
  clouds : List Cloud
  revisions : List Revision
  sequences : List NumberingSequence
  projectParams : List (String × String)
deriving DecidableEq, Repr

/-- Lookup of an element by id among the numbering sequences
(`doc.GetElement(rev.RevisionNumberingSequenceId)`; `none` = null). -/
def Model.getSequence (m : Model) (sid : Nat) : Option NumberingSequence :=
  m.sequences.find? (fun sq => sq.id == sid)

/-- A single cell write `ws.Range[col + row].Value2 = val`. -/
structure Write where
  col : String
  row : Nat
  val : CellValue
deriving DecidableEq, Repr

/-! ## Generic helpers -/

/-- Python 2 `str.isspace` characters: space, tab, newline, carriage
return, vertical tab, form feed. -/
def isPyWhitespace (c : Char) : Bool :=
  c = ' ' || c = '\t' || c = '\n' || c = '\r' || c = '\x0b' || c = '\x0c'

/-- Drop the maximal leading run of whitespace characters. -/
def dropLeadingWS : List Char → List Char
  | [] => []
  | c :: cs => if isPyWhitespace c then dropLeadingWS cs else c :: cs

/-- Python `str.strip()`: remove leading and trailing whitespace. -/
def strip (s : String) : String :=
  String.mk ((dropLeadingWS ((dropLeadingWS s.toList).reverse)).reverse)

/-- Python `str.zfill`: left-pad with `'0'` to the given width. -/
def zfill (s : String) (width : Nat) : String :=
  if width ≤ s.length then s
  else String.mk (List.replicate (width - s.length) '0') ++ s

/-- First-occurrence deduplication: the iteration order of the keys of an
`OrderedDict` built by repeated `setdefault`. -/
def firstDedup : List Nat → List Nat
  | [] => []
  | a :: l => a :: (firstDedup l).filter (fun x => x ≠ a)

/-- Insertion step of a stable ascending sort by key: the new element goes
before the first existing element whose key is not below it. -/
def insertByKey {α β : Type} (le : β → β → Bool) (key : α → β) (x : α) :
    List α → List α
  | [] => [x]
  | y :: ys => if le (key x) (key y) then x :: y :: ys else y :: insertByKey le key x ys

/-- Stable ascending sort by key: the embedding of Python's stable
`list.sort(key=...)`. -/
def sortByKey {α β : Type} (le : β → β → Bool) (key : α → β) : List α → List α
  | [] => []
  | x :: xs => insertByKey le key x (sortByKey le key xs)

/-- Length of the maximal leading run of ASCII digits, with the rest. -/
def countLeadingDigits : List Char → Nat × List Char
  | [] => (0, [])
  | c :: cs =>
    if c.isDigit then
      let p := countLeadingDigits cs
      (p.1 + 1, p.2)
    else (0, c :: cs)

/-- Full match of `^\d{1,2}[./]\d{1,2}[./]\d{2,4}$` (the source's
`date_rx`).  Because the separators are not digits, the greedy regex is
equivalent to maximal-munch digit runs of the required lengths.  The `$`
of the Python pattern would also accept one trailing newline, but the
date strings fed to it are stripped, so full match is equivalent. -/
def matchesDatePattern (s : String) : Bool :=
  let p1 := countLeadingDigits s.toList
  match p1.2 with
  | sep1 :: r1 =>
    if (p1.1 == 1 || p1.1 == 2) && (sep1 == '.' || sep1 == '/') then
      let p2 := countLeadingDigits r1
      match p2.2 with
      | sep2 :: r2 =>
        if (p2.1 == 1 || p2.1 == 2) && (sep2 == '.' || sep2 == '/') then
          let p3 := countLeadingDigits r2
          (p3.1 == 2 || p3.1 == 3 || p3.1 == 4) && p3.2.isEmpty
        else false
      | [] => false
    else false
  | [] => false

/-- Numeric value of an ASCII digit character. -/
def charVal (c : Char) : Nat := c.toNat - 48

/-- Worker for `digitGroups`: scans characters, carrying the value of the
digit run currently being read (`none` when outside a run). -/
def digitRunsAux : List Char → Option Nat → List Nat
  | [], none => []
  | [], some v => [v]
  | c :: cs, none =>
    if c.isDigit then digitRunsAux cs (some (charVal c)) else digitRunsAux cs none
  | c :: cs, some v =>
    if c.isDigit then digitRunsAux cs (some (v * 10 + charVal c))
    else v :: digitRunsAux cs none

/-- The source's `map(int, re.findall(r'\d+', s))`: the integer values of
the maximal digit runs of `s`, in order. -/
def digitGroups (s : String) : List Nat := digitRunsAux s.toList none

/-- Whether the pattern is an initial segment of the text. -/
def leadsWith : List Char → List Char → Bool
  | [], _ => true
  | _ :: _, [] => false
  | p :: ps, t :: ts => p = t && leadsWith ps ts

/-- Whether the pattern occurs contiguously somewhere in the text. -/
def hasSub (pat : List Char) : List Char → Bool
  | [] => pat.isEmpty
  | t :: ts => leadsWith pat (t :: ts) || hasSub pat ts

/-- Python's `'Project' in pname` substring test. -/
def containsProject (pname : String) : Bool := hasSub "Project".toList pname.toList

/-- Structural worker for the column-name loop.  The loop state strictly
decreases (`n ↦ n / 26 - 1`), so a fuel of `n` always suffices; the
fuel-zero fallback (only ever reached at `n = 0`) returns the same
single letter as the loop would. -/
def excelColGo (fuel n : Nat) : List Char :=
  match fuel with
  | 0 => [Char.ofNat (65 + n % 26)]
  | fuel + 1 =>
    if n < 26 then [Char.ofNat (65 + n)]
    else excelColGo fuel (n / 26 - 1) ++ [Char.ofNat (65 + n % 26)]

/-- Character list of `excel_col_name`: bijective base-26 with letters
`A`–`Z` (the source's `while n >= 0: n, r = divmod(n, 26); ...; n -= 1`). -/
def excelColChars (n : Nat) : List Char := excelColGo n n

/-- The source's `excel_col_name`: 0 ↦ "A", 1 ↦ "B", …, 26 ↦ "AA", …. -/
def excel_col_name (n : Nat) : String := String.mk (excelColChars n)

/-! ## Program: helper functions -/

/-- The source's `get_rev_number(revision, sheet=None)`: with a sheet,
`sheet.GetRevisionNumberOnSheet(revision.Id)` (empty string when the
revision is not numbered on that sheet); otherwise the duck-typed
`RevisionNumber` attribute when present, else `SequenceNumber`. -/
def get_rev_number (revision : Revision) (sheet : Option Sheet) : CellValue :=
  match sheet with
  | some s => CellValue.str ((s.perSheetRevNumbers.lookup revision.id).getD "")
  | none =>
    match revision.revisionNumber with
    | some n => CellValue.str n
    | none => CellValue.num revision.sequenceNumber

/-! ## Program: sheet-revision association (`RevisedSheet`) -/

/-- Body of `RevisedSheet._find_clouds`: the clouds whose owner view is
the sheet itself or the view of a viewport placed on the sheet. -/
def findClouds (allClouds : List Cloud) (s : Sheet) : List Cloud :=
  let viewIds := s.id :: s.viewportViewIds
  allClouds.filter (fun c => viewIds.contains c.ownerViewId)

/-- Body of `RevisedSheet._find_revisions`: the set `_rev_ids`, i.e. the
targets of the sheet's clouds together with
`GetAdditionalRevisionIds()`.  A Python `set` is modelled as a
duplicate-free list in first-insertion order. -/
def findRevIds (allClouds : List Cloud) (s : Sheet) : List Nat :=
  firstDedup ((findClouds allClouds s).map (fun c => c.revisionId) ++ s.additionalRevisionIds)

/-- The derived `RevisedSheet` record: a sheet with its revision-id set. -/
structure RevisedSheet where
  sheet : Sheet
  revIds : List Nat
deriving DecidableEq, Repr

/-- The `RevisedSheet(sheet)` constructor. -/
def mkRevisedSheet (allClouds : List Cloud) (s : Sheet) : RevisedSheet :=
  ⟨s, findRevIds allClouds s⟩

/-- `RevisedSheet.rev_count`. -/
def RevisedSheet.rev_count (rs : RevisedSheet) : Nat := rs.revIds.length

/-- `RevisedSheet.get_drawing_number`: walk the fixed parameter list,
look each name up on the project information (when the name contains
`"Project"`) or on the sheet, keep the stripped value when the parameter
exists and its raw string is truthy (non-empty), and hyphen-join. -/
def drawingParamNames : List String :=
  ["Project Number", "EWP_Project_Originator Code", "EWP_Sheet_Zone Code",
   "EWP_Sheet_Level Code", "EWP_Sheet_Type Code", "EWP_Project_Role Code",
   "Sheet Number"]

/-- One `LookupParameter(..).AsString()` in `get_drawing_number`. -/
def lookupDrawingParam (m : Model) (s : Sheet) (pname : String) : Option String :=
  if containsProject pname then m.projectParams.lookup pname else s.textParams.lookup pname

/-- `RevisedSheet.get_drawing_number` (the `if p and p.AsString():
parts.append(p.AsString().strip())` loop followed by `"-".join(parts)`). -/
def get_drawing_number (m : Model) (s : Sheet) : String :=
  String.intercalate "-" (drawingParamNames.filterMap (fun pname =>
    match lookupDrawingParam m s pname with
    | some v => if v = "" then none else some (strip v)
    | none => none))

/-! ## Program: sheet discovery and filter -/

/-- `filter_valid_sheets_and_show_count`: keep the sheets whose
"Appears In Sheet List" parameter exists with integer value 1, that have
at least one viewport, and whose revision set is non-empty; also return
the total revision count. -/
def filter_valid_sheets_and_show_count (allClouds : List Cloud) (allSheets : List Sheet)
    (allRevisions : List Revision) : List RevisedSheet × Nat :=
  (allSheets.filterMap (fun sheet =>
    match sheet.appearsInSheetList with
    | none => none
    | some v =>
      if v ≠ 1 then none
      else
        let rs := mkRevisedSheet allClouds sheet
        if sheet.viewportViewIds ≠ [] ∧ rs.rev_count > 0 then some rs else none),
   allRevisions.length)

/-! ## Program: revision filtering and sorting -/

/-- The accumulated `assigned` set (`assigned |= rs._rev_ids` over all
revised sheets); only membership in it is ever consumed. -/
def assignedIds (revisedSheets : List RevisedSheet) : List Nat :=
  revisedSheets.flatMap (fun rs => rs.revIds)

/-- The derived tuple `(revId, num, date_str, desc)`. -/
structure RevRecord where
  revId : Nat
  num : CellValue
  dateStr : String
  desc : String
deriving DecidableEq, Repr

/-- Loop body of `build_filtered_rev_data`: `none` when the revision is
skipped (`continue`), otherwise its record. -/
def revRecordOf (assigned : List Nat) (rev : Revision) : Option RevRecord :=
  if assigned.contains rev.id then
    if matchesDatePattern rev.revisionDate then
      some ⟨rev.id, get_rev_number rev none, rev.revisionDate, rev.description⟩
    else none
  else none

/-- The `filtered` list before the final sort, in discovery order. -/
def preSortRevData (allRevisions : List Revision) (revisedSheets : List RevisedSheet) :
    List RevRecord :=
  allRevisions.filterMap (revRecordOf (assignedIds revisedSheets))

/-- `build_filtered_rev_data`: the filtered records sorted stably,
ascending by the raw display number `x[1]`. -/
def build_filtered_rev_data (allRevisions : List Revision)
    (revisedSheets : List RevisedSheet) : List RevRecord :=
  sortByKey cvLE (fun r => r.num) (preSortRevData allRevisions revisedSheets)

/-! ## Program: grid renderer for one page -/

/-- The `rev_index` dictionary of `fill_sheet_block_chunk`, as a lookup:
the index of the record of a revision id within the current revision
chunk (`none` models `dict.get` missing).  Chunk records stem from
distinct model elements, whose ids are unique, so first-index lookup
agrees with the comprehension-built dictionary. -/
def revIndexOf (rid : Nat) : List RevRecord → Option Nat
  | [] => none
  | rec :: rest =>
    if rec.revId = rid then some 0 else (revIndexOf rid rest).map (fun j => j + 1)

/-- The list `revs` of `fill_sheet_block_chunk`: the sheet's revision ids
restricted to the current chunk, resolved through `doc.GetElement` and
sorted (stably) by `SequenceNumber`. -/
def chunkRevs (m : Model) (revChunk : List RevRecord) (rs : RevisedSheet) : List Revision :=
  sortByKey (fun a b => decide (a ≤ b)) (fun r => r.sequenceNumber)
    (rs.revIds.filterMap (fun rid =>
      if (revIndexOf rid revChunk).isSome then m.revisions.find? (fun r => r.id == rid)
      else none))

/-- The numeric-sequence label
`prefix + str(s.StartNumber + seq_idx - 1).zfill(s.MinimumDigits) + suffix`. -/
def numericLabel (s : NumericSettings) (seqIdx : Nat) : String :=
  s.pfx ++ zfill (toString (s.startNumber + seqIdx - 1)) s.minimumDigits ++ s.sfx

/-- Label for one revision at 1-based group position `seqIdx`: the numeric
label when its sequence resolves and is `Numeric`, else
`get_rev_number(rev)` — with no sheet argument. -/
def revLabel (m : Model) (rev : Revision) (seqIdx : Nat) : CellValue :=
  match m.getSequence rev.numberingSequenceId with
  | some sq =>
    if sq.numberType = RevNumberType.Numeric then
      CellValue.str (numericLabel sq.settings seqIdx)
    else get_rev_number rev none
  | none => get_rev_number rev none

/-- Inner loop `for seq_idx, rev in enumerate(grp, start=1)`: one write per
group member whose id is in `rev_index`, at column `excel_col_name(3 + j)`. -/
def groupLabelWrites (m : Model) (revChunk : List RevRecord) (row : Nat) :
    Nat → List Revision → List Write
  | _, [] => []
  | seqIdx, rev :: rest =>
    (match revIndexOf rev.id revChunk with
     | none => []
     | some j => [⟨excel_col_name (3 + j), row, revLabel m rev seqIdx⟩]) ++
    groupLabelWrites m revChunk row (seqIdx + 1) rest

/-- The grouped label writes of one sheet row: `groups` is an
`OrderedDict` keyed by `RevisionNumberingSequenceId` (first-seen key
order, members in `revs` order), each group enumerated from 1. -/
def sheetLabelWrites (m : Model) (revChunk : List RevRecord) (row : Nat)
    (rs : RevisedSheet) : List Write :=
  (firstDedup ((chunkRevs m revChunk rs).map (fun r => r.numberingSequenceId))).flatMap
    (fun sid => groupLabelWrites m revChunk row 1
      ((chunkRevs m revChunk rs).filter (fun r => r.numberingSequenceId = sid)))

/-- Body of the `for i, rs in enumerate(sheet_block)` loop: drawing
number in column A, sheet name in column B, then the label writes, all
at `row = 10 + i`. -/
def sheetRowWrites (m : Model) (revChunk : List RevRecord) (i : Nat)
    (rs : RevisedSheet) : List Write :=
  ⟨"A", 10 + i, CellValue.str (get_drawing_number m rs.sheet)⟩ ::
  ⟨"B", 10 + i, CellValue.str rs.sheet.name⟩ ::
  sheetLabelWrites m revChunk (10 + i) rs

/-- The sheet loop of `fill_sheet_block_chunk`, carrying the index `i`. -/
def fillSheetRows (m : Model) (revChunk : List RevRecord) :
    Nat → List RevisedSheet → List Write
  | _, [] => []
  | i, rs :: rest =>
    sheetRowWrites m revChunk i rs ++ fillSheetRows m revChunk (i + 1) rest

/-- `fill_sheet_block_chunk(ws, sheet_block, rev_chunk)` as the list of
cell writes it performs. -/
def fill_sheet_block_chunk (m : Model) (sheetBlock : List RevisedSheet)
    (revChunk : List RevRecord) : List Write :=
  fillSheetRows m revChunk 0 sheetBlock

/-- The `for j, (...) in enumerate(rev_chunk)` loop of the header fill:
day/month/year into rows 6–8 of column `excel_col_name(3 + j)`, skipping
records whose date does not split into exactly three digit groups. -/
def fillHeaderCols : Nat → List RevRecord → List Write
  | _, [] => []
  | j, rec :: rest =>
    (match digitGroups rec.dateStr with
     | [d, mo, y] =>
       [⟨excel_col_name (3 + j), 6, CellValue.num d⟩,
        ⟨excel_col_name (3 + j), 7, CellValue.num mo⟩,
        ⟨excel_col_name (3 + j), 8, CellValue.num y⟩]
     | _ => []) ++ fillHeaderCols (j + 1) rest

/-- `fill_revision_header_chunk(ws, rev_chunk)` as its list of writes. -/
def fill_revision_header_chunk (revChunk : List RevRecord) : List Write :=
  fillHeaderCols 0 revChunk

/-! ## Program: chunk partitioner -/

/-- `(n + size - 1) // size`, the chunk-count expression of
`fill_all_chunks`. -/
def numChunks (n size : Nat) : Nat := (n + size - 1) / size

/-- Python slice `l[i*size : (i+1)*size]`. -/
def sliceChunk {α : Type} (l : List α) (size i : Nat) : List α :=
  (l.drop (i * size)).take size

/-- The writes destined for one worksheet (`wb.Sheets.Item[ws_index]`). -/
structure PageFill where
  wsIndex : Nat
  headerWrites : List Write
  bodyWrites : List Write
deriving DecidableEq, Repr

/-- `fill_all_chunks`: build the filtered revision data, split revisions
and sheets into chunks, and fill worksheet `rc * num_sheet_chunks + sc + 1`
for every revision-chunk index `rc` and sheet-chunk index `sc`. -/
def fill_all_chunks (m : Model) (allRevisions : List Revision)
    (revisedSheets : List RevisedSheet) (revChunkSize sheetChunkSize : Nat) :
    List PageFill :=
  (List.range (numChunks (build_filtered_rev_data allRevisions revisedSheets).length
      revChunkSize)).flatMap (fun rc =>
    (List.range (numChunks revisedSheets.length sheetChunkSize)).map (fun sc =>
      ⟨rc * numChunks revisedSheets.length sheetChunkSize + sc + 1,
       fill_revision_header_chunk
         (sliceChunk (build_filtered_rev_data allRevisions revisedSheets) revChunkSize rc),
       fill_sheet_block_chunk m (sliceChunk revisedSheets sheetChunkSize sc)
         (sliceChunk (build_filtered_rev_data allRevisions revisedSheets) revChunkSize rc)⟩))

/-! ## Specification-side definitions (for refinement comparisons) -/

/-- Follows the claim wording for C1: the revisions of the sheet's
association set that belong to the given numbering sequence. -/
def claimSameSeqRevs (m : Model) (rs : RevisedSheet) (sid : Nat) : List Revision :=
  (rs.revIds.filterMap (fun rid => m.revisions.find? (fun r => r.id == rid))).filter
    (fun r => r.numberingSequenceId = sid)

/-- Follows the claim wording for C1: the 1-based rank of a revision, by
ascending global sequence number, among all revisions of the sheet's
association set that share its numbering sequence. -/
def claimPosition (m : Model) (rs : RevisedSheet) (rev : Revision) : Nat :=
  1 + ((claimSameSeqRevs m rs rev.numberingSequenceId).filter
    (fun r => decide (r.sequenceNumber < rev.sequenceNumber))).length

/-- The code's actual 1-based rank for C1: computed among the revisions of
the sheet's association set that also lie in the current page's revision
chunk. -/
def chunkPosition (m : Model) (revChunk : List RevRecord) (rs : RevisedSheet)
    (rev : Revision) : Nat :=
  1 + (((chunkRevs m revChunk rs).filter
    (fun r => r.numberingSequenceId = rev.numberingSequenceId)).filter
    (fun r => decide (r.sequenceNumber < rev.sequenceNumber))).length

/-- Follows the (amended) claim wording for C4: eligibility of a sheet —
flag parameter present with value 1, at least one placed viewport, and a
non-empty derived revision set. -/
def eligibleSheet (allClouds : List Cloud) (s : Sheet) : Bool :=
  decide (s.appearsInSheetList = some 1) && !s.viewportViewIds.isEmpty &&
    !(findRevIds allClouds s).isEmpty

/-- Follows the claim wording for C8: hyphen-join of exactly the
non-empty trimmed attribute values. -/
def specDrawingNumber (m : Model) (s : Sheet) : String :=
  String.intercalate "-" (drawingParamNames.filterMap (fun pname =>
    match lookupDrawingParam m s pname with
    | some v => if strip v = "" then none else some (strip v)
    | none => none))

/-! ## Concrete instances used by witnesses and counterexamples -/

/-- A numbering sequence `{prefix="A", suffix="", start=1, digits=2}`. -/
def seqW : NumberingSequence := ⟨5, RevNumberType.Numeric, ⟨"A", "", 1, 2⟩⟩

/-- Witness revision 1: created third (sequence number 30). -/
def revW1 : Revision := ⟨10, some "r10", 30, 5, "1.1.25", "d10"⟩

/-- Witness revision 2: created second (sequence number 20). -/
def revW2 : Revision := ⟨11, some "r11", 20, 5, "2.1.25", "d11"⟩

/-- Witness revision 3: created first (sequence number 10). -/
def revW3 : Revision := ⟨12, some "r12", 10, 5, "3.1.25", "d12"⟩

/-- Witness sheet: flagged, one viewport, three attached revisions. -/
def sheetW : Sheet :=
  ⟨100, "Sheet One", "S01", some 1, [200], [10, 11, 12], [],
   [("Sheet Number", "S01")]⟩

/-- Witness model tying the above together. -/
def mdlW : Model :=
  ⟨[sheetW], [], [revW1, revW2, revW3], [seqW], [("Project Number", "100")]⟩

/-- The witness model's single revised sheet. -/
def rsW : RevisedSheet := mkRevisedSheet mdlW.clouds sheetW

/-- C1 counterexample revision: malformed date, created first. -/
def revC1 : Revision := ⟨1, some "r1", 1, 5, "bad date", "d1"⟩

/-- C1 counterexample revision: well-formed date, created second. -/
def revC2 : Revision := ⟨2, some "r2", 2, 5, "1.1.25", "d2"⟩

/-- C1 counterexample sheet: both revisions attached. -/
def sheetC : Sheet := ⟨100, "Sheet C", "C01", some 1, [200], [1, 2], [], []⟩

/-- C1 counterexample model. -/
def mdlC : Model := ⟨[sheetC], [], [revC1, revC2], [seqW], []⟩

/-- The C1 counterexample's revised sheet. -/
def rsC : RevisedSheet := mkRevisedSheet mdlC.clouds sheetC

/-- C4 counterexample sheet: flag value 2 (truthy but not 1), one
viewport, one attached revision. -/
def sheetC4 : Sheet := ⟨1, "S", "S1", some 2, [7], [3], [], []⟩

/-- C7 counterexample sequence: not of Numeric type. -/
def seqN : NumberingSequence := ⟨6, RevNumberType.Alphanumeric, ⟨"", "", 1, 1⟩⟩

/-- C7 counterexample revision: stored revision number "3". -/
def revN : Revision := ⟨21, some "3", 1, 6, "1.1.25", "dN"⟩

/-- C7 counterexample sheet: its per-sheet number for revision 21 is "7". -/
def sheetN : Sheet := ⟨101, "Sheet N", "N01", some 1, [300], [21], [(21, "7")], []⟩

/-- C7 counterexample model. -/
def mdlN : Model := ⟨[sheetN], [], [revN], [seqN], []⟩

/-- The C7 counterexample's revised sheet. -/
def rsN : RevisedSheet := mkRevisedSheet mdlN.clouds sheetN

/-- C8 witness sheet: the claim's attribute example, sheet-scoped part. -/
def sheetC8 : Sheet :=
  ⟨2, "N", "S01", none, [], [], [],
   [("EWP_Sheet_Zone Code", "B"), ("EWP_Sheet_Level Code", "L2"),
    ("EWP_Sheet_Type Code", ""), ("Sheet Number", "S01")]⟩

/-- C8 witness model: the claim's attribute example, project-scoped part. -/
def modelC8 : Model :=
  ⟨[], [], [], [],
   [("Project Number", "100"), ("EWP_Project_Originator Code", ""),
    ("EWP_Project_Role Code", "")]⟩

/-- C8 counterexample sheet: whitespace-only zone code. -/
def sheetC8bad : Sheet :=
  ⟨3, "N", "S01", none, [], [], [],
   [("EWP_Sheet_Zone Code", " "), ("Sheet Number", "S01")]⟩

/-- C8 counterexample model. -/
def modelC8bad : Model := ⟨[], [], [], [], [("Project Number", "100")]⟩

/-- A two-record revision chunk used by the C9 witness. -/
def chunkW : List RevRecord :=
  [⟨1, CellValue.num 1, "1.1.25", "x"⟩, ⟨2, CellValue.num 2, "2.1.25", "y"⟩]

/-- A revision record whose id is assigned to no sheet of the witness
model, used by the C10 witness. -/
def recX : RevRecord := ⟨99, CellValue.num 99, "9.9.99", "z"⟩

/-! ## Lemmas: stable sort -/

theorem insertByKey_perm {α β : Type} (le : β → β → Bool) (key : α → β) (x : α)
    (l : List α) : (insertByKey le key x l).Perm (x :: l) := by
  induction l with
  | nil => simp [insertByKey]
  | cons y ys ih =>
    by_cases h : le (key x) (key y)
    · simp [insertByKey, h]
    · simp only [insertByKey, h, Bool.false_eq_true, if_false]
      exact (ih.cons y).trans (List.Perm.swap x y ys)

theorem sortByKey_perm {α β : Type} (le : β → β → Bool) (key : α → β)
    (l : List α) : (sortByKey le key l).Perm l := by
  induction l with
  | nil => simp [sortByKey]
  | cons x xs ih =>
    exact (insertByKey_perm le key x (sortByKey le key xs)).trans (ih.cons x)

theorem mem_insertByKey {α β : Type} (le : β → β → Bool) (key : α → β) (x a : α)
    (l : List α) : a ∈ insertByKey le key x l ↔ a = x ∨ a ∈ l := by
  rw [(insertByKey_perm le key x l).mem_iff, List.mem_cons]

theorem pairwise_insertByKey {α β : Type} (le : β → β → Bool) (key : α → β)
    (htrans : ∀ a b c, le a b = true → le b c = true → le a c = true)
    (htotal : ∀ a b, le a b = true ∨ le b a = true)
    (x : α) (l : List α) (hl : l.Pairwise (fun a b => le (key a) (key b) = true)) :
    (insertByKey le key x l).Pairwise (fun a b => le (key a) (key b) = true) := by
  induction l with
  | nil => simp [insertByKey]
  | cons y ys ih =>
    rcases List.pairwise_cons.mp hl with ⟨hy, hys⟩
    by_cases h : le (key x) (key y)
    · simp only [insertByKey, h, if_true]
      refine List.pairwise_cons.mpr ⟨?_, hl⟩
      intro z hz
      rcases List.mem_cons.mp hz with rfl | hz'
      · exact h
      · exact htrans _ _ _ h (hy z hz')
    · have h' : le (key y) (key x) = true := (htotal _ _).resolve_left h
      simp only [insertByKey, h, Bool.false_eq_true, if_false]
      refine List.pairwise_cons.mpr ⟨?_, ih hys⟩
      intro z hz
      rcases (mem_insertByKey le key x z ys).mp hz with rfl | hz'
      · exact h'
      · exact hy z hz'

theorem pairwise_sortByKey {α β : Type} (le : β → β → Bool) (key : α → β)
    (htrans : ∀ a b c, le a b = true → le b c = true → le a c = true)
    (htotal : ∀ a b, le a b = true ∨ le b a = true) (l : List α) :
    (sortByKey le key l).Pairwise (fun a b => le (key a) (key b) = true) := by
  induction l with
  | nil => simp [sortByKey]
  | cons x xs ih => exact pairwise_insertByKey le key htrans htotal x _ ih

theorem filter_insertByKey {α β : Type} (le : β → β → Bool) (key : α → β)
    (p : α → Bool)
    (hcompat : ∀ a b, p a = true → p b = true → le (key a) (key b) = true)
    (x : α) (l : List α) :
    (insertByKey le key x l).filter p =
      if p x then x :: l.filter p else l.filter p := by
  induction l with
  | nil => by_cases hx : p x <;> simp [insertByKey, hx]
  | cons y ys ih =>
    by_cases h : le (key x) (key y)
    · by_cases hx : p x <;> simp [insertByKey, h, hx, List.filter_cons]
    · simp only [insertByKey, h, Bool.false_eq_true, if_false]
      by_cases hy : p y
      · have hx : p x = false := by
          cases hpx : p x with
          | false => rfl
          | true => exact absurd (hcompat x y hpx hy) h
        simp [List.filter_cons, hy, hx, ih, hx]
      · simp [List.filter_cons, hy, ih]

theorem filter_sortByKey {α β : Type} (le : β → β → Bool) (key : α → β)
    (p : α → Bool)
    (hcompat : ∀ a b, p a = true → p b = true → le (key a) (key b) = true)
    (l : List α) : (sortByKey le key l).filter p = l.filter p := by
  induction l with
  | nil => simp [sortByKey]
  | cons x xs ih =>
    rw [sortByKey, filter_insertByKey le key p hcompat, List.filter_cons, ih]

/-! ## Lemmas: first-occurrence dedup -/

theorem mem_firstDedup (a : Nat) : ∀ (l : List Nat), a ∈ firstDedup l ↔ a ∈ l := by
  intro l
  induction l with
  | nil => simp [firstDedup]
  | cons b bs ih =>
    simp only [firstDedup, List.mem_cons]
    constructor
    · rintro (rfl | h)
      · exact Or.inl rfl
      · exact Or.inr (ih.mp (List.mem_of_mem_filter h))
    · rintro (rfl | h)
      · exact Or.inl rfl
      · by_cases hab : a = b
        · exact Or.inl hab
        · exact Or.inr (List.mem_filter.mpr ⟨ih.mpr h, by simp [hab]⟩)

theorem nodup_firstDedup : ∀ (l : List Nat), (firstDedup l).Nodup := by
  intro l
  induction l with
  | nil => simp [firstDedup]
  | cons b bs ih =>
    simp only [firstDedup]
    refine List.Pairwise.cons ?_ (ih.filter _)
    intro a ha
    have := (List.mem_filter.mp ha).2
    simp at this
    exact fun hba => this hba.symm

/-! ## Lemmas: `excel_col_name` is injective -/

theorem charToNat65 : ∀ r : Nat, r < 26 → (Char.ofNat (65 + r)).toNat = 65 + r := by
  decide

theorem excelColGo_fuel : ∀ n f1 f2 : Nat, n ≤ f1 → n ≤ f2 →
    excelColGo f1 n = excelColGo f2 n := by
  intro n
  induction n using Nat.strong_induction_on with
  | _ n ih =>
    intro f1 f2 h1 h2
    cases f1 with
    | zero =>
      have hn : n = 0 := by omega
      subst hn
      cases f2 with
      | zero => rfl
      | succ f2 => simp [excelColGo]
    | succ f1 =>
      cases f2 with
      | zero =>
        have hn : n = 0 := by omega
        subst hn
        simp [excelColGo]
      | succ f2 =>
        by_cases h : n < 26
        · simp [excelColGo, h]
        · have h26 : 26 ≤ n := Nat.le_of_not_lt h
          have hlt : n / 26 - 1 < n := by
            have hpos : 0 < n / 26 := Nat.div_pos h26 (by decide)
            have := Nat.div_le_self n 26
            omega
          simp only [excelColGo, h, if_false]
          rw [ih _ hlt f1 f2 (by omega) (by omega)]

theorem excelColChars_eq (n : Nat) : excelColChars n =
    if n < 26 then [Char.ofNat (65 + n)]
    else excelColChars (n / 26 - 1) ++ [Char.ofNat (65 + n % 26)] := by
  unfold excelColChars
  cases n with
  | zero => simp [excelColGo]
  | succ k =>
    by_cases h : k + 1 < 26
    · simp [excelColGo, h]
    · have h26 : 26 ≤ k + 1 := Nat.le_of_not_lt h
      have hlt : (k + 1) / 26 - 1 < k + 1 := by
        have hpos : 0 < (k + 1) / 26 := Nat.div_pos h26 (by decide)
        have := Nat.div_le_self (k + 1) 26
        omega
      simp only [excelColGo, h, if_false]
      rw [excelColGo_fuel ((k + 1) / 26 - 1) k ((k + 1) / 26 - 1) (by omega)
        (Nat.le_refl _)]

theorem excelColChars_ne_nil (n : Nat) : excelColChars n ≠ [] := by
  rw [excelColChars_eq]
  by_cases h : n < 26 <;> simp [h]

theorem excelColChars_inj : ∀ n : Nat, ∀ m : Nat,
    excelColChars n = excelColChars m → n = m := by
  intro n
  induction n using Nat.strong_induction_on with
  | _ n ih =>
    intro m heq
    rw [excelColChars_eq n, excelColChars_eq m] at heq
    by_cases hn : n < 26 <;> by_cases hm : m < 26
    · simp only [hn, hm, if_pos, List.cons.injEq, and_true] at heq
      have h1 := charToNat65 n hn
      have h2 := charToNat65 m hm
      have := congrArg Char.toNat heq
      omega
    · simp only [hn, hm, if_pos, if_neg, not_false_iff] at heq
      have hlen := congrArg List.length heq
      simp only [List.length_cons, List.length_nil, List.length_append] at hlen
      have := List.length_pos.mpr (excelColChars_ne_nil (m / 26 - 1))
      omega
    · simp only [hn, hm, if_pos, if_neg, not_false_iff] at heq
      have hlen := congrArg List.length heq
      simp only [List.length_cons, List.length_nil, List.length_append] at hlen
      have := List.length_pos.mpr (excelColChars_ne_nil (n / 26 - 1))
      omega
    · simp only [hn, hm, if_neg, not_false_iff] at heq
      have hsplit := List.append_inj' heq (by simp)
      have hn26 : 26 ≤ n := Nat.le_of_not_lt hn
      have hm26 : 26 ≤ m := Nat.le_of_not_lt hm
      have hdec : n / 26 - 1 < n := by
        have hpos : 0 < n / 26 := Nat.div_pos hn26 (by decide)
        have := Nat.div_le_self n 26
        omega
      have hpre : n / 26 - 1 = m / 26 - 1 := ih _ hdec _ hsplit.1
      have hchar : Char.ofNat (65 + n % 26) = Char.ofNat (65 + m % 26) := by
        have := hsplit.2
        simpa using this
      have h1 := charToNat65 (n % 26) (Nat.mod_lt n (by decide))
      have h2 := charToNat65 (m % 26) (Nat.mod_lt m (by decide))
      have hmod : 65 + n % 26 = 65 + m % 26 := by
        rw [← h1, ← h2, hchar]
      omega

theorem excel_col_name_inj {n m : Nat} (h : excel_col_name n = excel_col_name m) :
    n = m :=
  excelColChars_inj n m (congrArg String.data h)

/-! ## Lemmas: `revIndexOf` -/

theorem revIndexOf_spec (rid : Nat) : ∀ (l : List RevRecord) (j : Nat),
    revIndexOf rid l = some j → ∃ rec, l[j]? = some rec ∧ rec.revId = rid := by
  intro l
  induction l with
  | nil => intro j h; simp [revIndexOf] at h
  | cons rec rest ih =>
    intro j h
    by_cases hr : rec.revId = rid
    · simp only [revIndexOf, hr, if_pos, Option.some.injEq] at h
      exact ⟨rec, by simp [← h], hr⟩
    · simp only [revIndexOf, hr, if_neg, not_false_iff, Option.map_eq_some'] at h
      rcases h with ⟨j', hj', rfl⟩
      rcases ih j' hj' with ⟨rec', hrec', hid⟩
      exact ⟨rec', by simpa using hrec', hid⟩

theorem revIndexOf_inj {l : List RevRecord} {rid1 rid2 j : Nat}
    (h1 : revIndexOf rid1 l = some j) (h2 : revIndexOf rid2 l = some j) :
    rid1 = rid2 := by
  rcases revIndexOf_spec rid1 l j h1 with ⟨rec1, hrec1, hid1⟩
  rcases revIndexOf_spec rid2 l j h2 with ⟨rec2, hrec2, hid2⟩
  rw [hrec1] at hrec2
  cases hrec2
  rw [← hid1, ← hid2]

/-! ## Lemmas: `chunkRevs` -/

theorem mem_chunkRevs {m : Model} {revChunk : List RevRecord} {rs : RevisedSheet}
    {rev : Revision} (h : rev ∈ chunkRevs m revChunk rs) :
    rev.id ∈ rs.revIds ∧ (revIndexOf rev.id revChunk).isSome ∧ rev ∈ m.revisions := by
  have hmem : rev ∈ rs.revIds.filterMap (fun rid =>
      if (revIndexOf rid revChunk).isSome then m.revisions.find? (fun r => r.id == rid)
      else none) := (sortByKey_perm _ _ _).mem_iff.mp h
  rcases List.mem_filterMap.mp hmem with ⟨rid, hrid, hres⟩
  by_cases hsome : (revIndexOf rid revChunk).isSome
  · simp only [hsome, if_pos] at hres
    have hid : rev.id = rid := by
      have := List.find?_some hres
      simpa using this
    subst hid
    exact ⟨hrid, hsome, List.mem_of_find?_eq_some hres⟩
  · simp [hsome] at hres

/-! ## Lemmas: `cvLE` is a total preorder -/

theorem strListLE_refl : ∀ l : List Char, strListLE l l = true := by
  intro l
  induction l with
  | nil => rfl
  | cons a as ih =>
    simp only [strListLE, Nat.lt_irrefl, if_false]
    exact ih

theorem strListLE_total : ∀ l1 l2 : List Char,
    strListLE l1 l2 = true ∨ strListLE l2 l1 = true := by
  intro l1
  induction l1 with
  | nil => intro l2; exact Or.inl rfl
  | cons a as ih =>
    intro l2
    cases l2 with
    | nil => exact Or.inr rfl
    | cons b bs =>
      by_cases hab : a.toNat < b.toNat
      · exact Or.inl (by simp [strListLE, hab])
      · by_cases hba : b.toNat < a.toNat
        · exact Or.inr (by simp [strListLE, hba])
        · rcases ih bs with h | h
          · exact Or.inl (by simp [strListLE, hab, hba, h])
          · exact Or.inr (by simp [strListLE, hab, hba, h])

theorem strListLE_trans : ∀ l1 l2 l3 : List Char, strListLE l1 l2 = true →
    strListLE l2 l3 = true → strListLE l1 l3 = true := by
  intro l1
  induction l1 with
  | nil => intro l2 l3 _ _; rfl
  | cons a as ih =>
    intro l2 l3 h12 h23
    cases l2 with
    | nil => exact absurd h12 (by simp [strListLE])
    | cons b bs =>
      cases l3 with
      | nil => exact absurd h23 (by simp [strListLE])
      | cons c cs =>
        simp only [strListLE] at h12 h23 ⊢
        by_cases hab : a.toNat < b.toNat
        · by_cases hbc : b.toNat < c.toNat
          · simp [show a.toNat < c.toNat by omega]
          · by_cases hcb : c.toNat < b.toNat
            · rw [if_neg hbc, if_pos hcb] at h23
              exact absurd h23 (by simp)
            · simp [show a.toNat < c.toNat by omega]
        · by_cases hba : b.toNat < a.toNat
          · rw [if_neg hab, if_pos hba] at h12
            exact absurd h12 (by simp)
          · rw [if_neg hab, if_neg hba] at h12
            by_cases hbc : b.toNat < c.toNat
            · simp [show a.toNat < c.toNat by omega]
            · by_cases hcb : c.toNat < b.toNat
              · rw [if_neg hbc, if_pos hcb] at h23
                exact absurd h23 (by simp)
              · rw [if_neg hbc, if_neg hcb] at h23
                rw [if_neg (show ¬ a.toNat < c.toNat by omega),
                  if_neg (show ¬ c.toNat < a.toNat by omega)]
                exact ih bs cs h12 h23

theorem cvLE_trans : ∀ a b c : CellValue,
    cvLE a b = true → cvLE b c = true → cvLE a c = true := by
  intro a b c hab hbc
  cases a <;> cases b <;> cases c <;> simp_all [cvLE, strLE]
  · exact strListLE_trans _ _ _ hab hbc
  · omega

theorem cvLE_total : ∀ a b : CellValue, cvLE a b = true ∨ cvLE b a = true := by
  intro a b
  cases a <;> cases b <;> simp [cvLE, strLE]
  · exact strListLE_total _ _
  · omega

theorem cvLE_refl : ∀ a : CellValue, cvLE a a = true := by
  intro a
  cases a <;> simp [cvLE, strLE, strListLE_refl]

/-! ## Lemmas: position of an element in a strictly sorted list -/

theorem sorted_strict_getElem (key : Revision → Nat) :
    ∀ (l : List Revision), l.Pairwise (fun a b => key a < key b) →
      ∀ x ∈ l, l[(l.filter (fun r => decide (key r < key x))).length]? = some x := by
  intro l
  induction l with
  | nil => intro _ x hx; simp at hx
  | cons y ys ih =>
    intro hp x hx
    rcases List.pairwise_cons.mp hp with ⟨hy, hys⟩
    rcases List.mem_cons.mp hx with rfl | hx'
    · have hfy : (List.filter (fun r => decide (key r < key x)) (x :: ys)).length = 0 := by
        rw [List.length_eq_zero, List.filter_eq_nil_iff]
        intro a ha
        rcases List.mem_cons.mp ha with rfl | ha'
        · simp
        · simp only [decide_eq_true_eq]
          exact Nat.not_lt.mpr (Nat.le_of_lt (hy a ha'))
      rw [hfy]
      simp
    · have hky : key y < key x := hy x hx'
      have hfy : List.filter (fun r => decide (key r < key x)) (y :: ys) =
          y :: List.filter (fun r => decide (key r < key x)) ys := by
        rw [List.filter_cons]
        simp [hky]
      rw [hfy]
      simpa using ih hys x hx'

/-! ## Lemmas: `groupLabelWrites` -/

theorem groupLabelWrites_mem (m : Model) (revChunk : List RevRecord) (row : Nat) :
    ∀ (l : List Revision) (s0 k : Nat) (rev : Revision) (j : Nat),
      l[k]? = some rev → revIndexOf rev.id revChunk = some j →
      (⟨excel_col_name (3 + j), row, revLabel m rev (s0 + k)⟩ : Write) ∈
        groupLabelWrites m revChunk row s0 l := by
  intro l
  induction l with
  | nil => intro s0 k rev j h; simp at h
  | cons r rest ih =>
    intro s0 k rev j hk hj
    cases k with
    | zero =>
      simp only [List.getElem?_cons_zero, Option.some.injEq] at hk
      subst hk
      simp only [groupLabelWrites, hj, Nat.add_zero, List.mem_append]
      exact Or.inl (by simp)
    | succ k' =>
      simp only [List.getElem?_cons_succ] at hk
      have := ih (s0 + 1) k' rev j hk hj
      simp only [groupLabelWrites, List.mem_append]
      refine Or.inr ?_
      have harith : s0 + 1 + k' = s0 + (k' + 1) := by omega
      rwa [harith] at this

theorem mem_groupLabelWrites (m : Model) (revChunk : List RevRecord) (row : Nat) :
    ∀ (l : List Revision) (s0 : Nat) (w : Write),
      w ∈ groupLabelWrites m revChunk row s0 l →
      ∃ rev k j, l[k]? = some rev ∧ revIndexOf rev.id revChunk = some j ∧
        w = ⟨excel_col_name (3 + j), row, revLabel m rev (s0 + k)⟩ := by
  intro l
  induction l with
  | nil => intro s0 w h; simp [groupLabelWrites] at h
  | cons r rest ih =>
    intro s0 w hw
    simp only [groupLabelWrites, List.mem_append] at hw
    rcases hw with hw | hw
    · cases hj : revIndexOf r.id revChunk with
      | none => rw [hj] at hw; simp at hw
      | some j =>
        rw [hj] at hw
        simp only [List.mem_singleton] at hw
        exact ⟨r, 0, j, by simp, hj, by simpa using hw⟩
    · rcases ih (s0 + 1) w hw with ⟨rev, k, j, hk, hj, hform⟩
      refine ⟨rev, k + 1, j, by simpa using hk, hj, ?_⟩
      have harith : s0 + 1 + k = s0 + (k + 1) := by omega
      rwa [harith] at hform

/-! ## Lemmas: `sheetLabelWrites`, `sheetRowWrites`, `fillSheetRows` -/

theorem mem_sheetLabelWrites {m : Model} {revChunk : List RevRecord} {row : Nat}
    {rs : RevisedSheet} {w : Write} (hw : w ∈ sheetLabelWrites m revChunk row rs) :
    ∃ rev k j sid,
      ((chunkRevs m revChunk rs).filter
        (fun r => r.numberingSequenceId = sid))[k]? = some rev ∧
      revIndexOf rev.id revChunk = some j ∧ rev ∈ chunkRevs m revChunk rs ∧
      w = ⟨excel_col_name (3 + j), row, revLabel m rev (1 + k)⟩ := by
  rcases List.mem_flatMap.mp hw with ⟨sid, hsid, hw'⟩
  rcases mem_groupLabelWrites m revChunk row _ 1 w hw' with ⟨rev, k, j, hk, hj, hform⟩
  refine ⟨rev, k, j, sid, hk, hj, ?_, hform⟩
  exact List.mem_of_mem_filter (List.getElem?_mem hk)

theorem mem_sheetRowWrites {m : Model} {revChunk : List RevRecord} {i : Nat}
    {rs : RevisedSheet} {w : Write} (hw : w ∈ sheetRowWrites m revChunk i rs) :
    w.row = 10 + i := by
  simp only [sheetRowWrites, List.mem_cons] at hw
  rcases hw with rfl | rfl | hw
  · rfl
  · rfl
  · rcases mem_sheetLabelWrites hw with ⟨_, _, _, _, _, _, _, hform⟩
    rw [hform]

theorem mem_fillSheetRows (m : Model) (revChunk : List RevRecord) :
    ∀ (bl : List RevisedSheet) (i0 : Nat) (w : Write),
      w ∈ fillSheetRows m revChunk i0 bl →
      ∃ k rs, bl[k]? = some rs ∧ w ∈ sheetRowWrites m revChunk (i0 + k) rs := by
  intro bl
  induction bl with
  | nil => intro i0 w h; simp [fillSheetRows] at h
  | cons rs rest ih =>
    intro i0 w hw
    simp only [fillSheetRows, List.mem_append] at hw
    rcases hw with hw | hw
    · exact ⟨0, rs, by simp, by simpa using hw⟩
    · rcases ih (i0 + 1) w hw with ⟨k, rs', hk, hw'⟩
      refine ⟨k + 1, rs', by simpa using hk, ?_⟩
      have harith : i0 + 1 + k = i0 + (k + 1) := by omega
      rwa [harith] at hw'

theorem fillSheetRows_mem (m : Model) (revChunk : List RevRecord) :
    ∀ (bl : List RevisedSheet) (i0 k : Nat) (rs : RevisedSheet) (w : Write),
      bl[k]? = some rs → w ∈ sheetRowWrites m revChunk (i0 + k) rs →
      w ∈ fillSheetRows m revChunk i0 bl := by
  intro bl
  induction bl with
  | nil => intro i0 k rs w h; simp at h
  | cons rs' rest ih =>
    intro i0 k rs w hk hw
    cases k with
    | zero =>
      simp only [List.getElem?_cons_zero, Option.some.injEq] at hk
      subst hk
      simp only [fillSheetRows, List.mem_append]
      exact Or.inl (by simpa using hw)
    | succ k' =>
      simp only [List.getElem?_cons_succ] at hk
      simp only [fillSheetRows, List.mem_append]
      refine Or.inr (ih (i0 + 1) k' rs w hk ?_)
      have harith : i0 + (k' + 1) = i0 + 1 + k' := by omega
      rwa [harith] at hw

/-! ## Lemmas: chunk partitioning -/

theorem numChunks_zero (k : Nat) : numChunks 0 k = 0 := by
  unfold numChunks
  cases k with
  | zero => rfl
  | succ k' => exact Nat.div_eq_of_lt (by omega)

theorem numChunks_succ (n k : Nat) (hk : 0 < k) (hn : 0 < n) :
    numChunks n k = numChunks (n - k) k + 1 := by
  unfold numChunks
  rcases le_or_lt n k with h | h
  · have e1 : n + k - 1 = (n - 1) + k := by omega
    have e2 : n - k + k - 1 = k - 1 := by omega
    rw [e1, e2, Nat.add_div_right _ hk, Nat.div_eq_of_lt (show n - 1 < k by omega),
      Nat.div_eq_of_lt (show k - 1 < k by omega)]
  · have e1 : n + k - 1 = (n - 1) + k := by omega
    have e2 : n - k + k - 1 = (n - 1 - k) + k := by omega
    have e3 : n - 1 = (n - 1 - k) + k := by omega
    rw [e1, e2, Nat.add_div_right _ hk, Nat.add_div_right _ hk, e3,
      Nat.add_div_right _ hk]
    have e4 : n - 1 - k + k - k = n - 1 - k := by omega
    rw [e4]

theorem sliceChunk_succ {α : Type} (l : List α) (k i : Nat) :
    sliceChunk l k (i + 1) = sliceChunk (l.drop k) k i := by
  unfold sliceChunk
  rw [List.drop_drop]
  congr 1
  rw [Nat.succ_mul, Nat.add_comm]

theorem chunks_join_aux {α : Type} (k : Nat) (hk : 0 < k) :
    ∀ (n : Nat) (l : List α), l.length ≤ n →
      (List.range (numChunks l.length k)).flatMap (fun i => sliceChunk l k i) = l := by
  intro n
  induction n with
  | zero =>
    intro l hl
    have : l = [] := List.eq_nil_of_length_eq_zero (by omega)
    subst this
    simp [numChunks_zero]
  | succ n ih =>
    intro l hl
    cases hcl : l with
    | nil => simp [numChunks_zero]
    | cons x xs =>
      subst hcl
      have hlen : 0 < (x :: xs).length := by simp
      rw [numChunks_succ _ k hk hlen, List.range_succ_eq_map]
      rw [List.flatMap_cons, List.flatMap_map]
      have hslice0 : sliceChunk (x :: xs) k 0 = (x :: xs).take k := by
        simp [sliceChunk]
      have hinner : ∀ i : Nat, sliceChunk (x :: xs) k (Nat.succ i) =
          sliceChunk ((x :: xs).drop k) k i := fun i => sliceChunk_succ _ k i
      have hrec : (List.range (numChunks ((x :: xs).length - k) k)).flatMap
          (fun i => sliceChunk (x :: xs) k (Nat.succ i)) =
          (List.range (numChunks ((x :: xs).drop k).length k)).flatMap
            (fun i => sliceChunk ((x :: xs).drop k) k i) := by
        rw [List.length_drop]
        exact List.flatMap_congr (fun i _ => hinner i)
      rw [hslice0]
      have hdroplen : ((x :: xs).drop k).length ≤ n := by
        rw [List.length_drop]
        simp only [List.length_cons] at hl ⊢
        omega
      calc (x :: xs).take k ++ (List.range (numChunks ((x :: xs).length - k) k)).flatMap
            (fun i => sliceChunk (x :: xs) k (Nat.succ i))
          = (x :: xs).take k ++ (x :: xs).drop k := by rw [hrec, ih _ hdroplen]
        _ = x :: xs := List.take_append_drop k (x :: xs)

theorem chunks_join {α : Type} (k : Nat) (hk : 0 < k) (l : List α) :
    (List.range (numChunks l.length k)).flatMap (fun i => sliceChunk l k i) = l :=
  chunks_join_aux k hk l.length l (Nat.le_refl _)

theorem flatMap_range_map_length {α : Type} (f : Nat → Nat → α) (a b : Nat) :
    ((List.range a).flatMap (fun i => (List.range b).map (f i))).length = a * b := by
  induction a with
  | zero => simp
  | succ a ih =>
    rw [List.range_succ, List.flatMap_append, List.length_append, ih]
    simp [Nat.succ_mul]

theorem flatMap_range_map_getElem {α : Type} (f : Nat → Nat → α) (a b i j : Nat)
    (hi : i < a) (hj : j < b) :
    ((List.range a).flatMap (fun i => (List.range b).map (f i)))[i * b + j]? =
      some (f i j) := by
  induction a with
  | zero => omega
  | succ a ih =>
    rw [List.range_succ, List.flatMap_append]
    rcases Nat.lt_or_ge i a with hia | hia
    · have hlt : i * b + j <
          ((List.range a).flatMap (fun i => (List.range b).map (f i))).length := by
        rw [flatMap_range_map_length]
        calc i * b + j < i * b + b := by omega
          _ = (i + 1) * b := by ring
          _ ≤ a * b := Nat.mul_le_mul_right b (by omega)
      rw [List.getElem?_append, if_pos hlt]
      exact ih hia
    · have hieq : i = a := by omega
      subst hieq
      rw [List.getElem?_append_right (by rw [flatMap_range_map_length]; omega)]
      rw [flatMap_range_map_length]
      simp only [List.flatMap_cons, List.flatMap_nil, List.append_nil]
      have harith : i * b + j - i * b = j := by omega
      rw [harith, List.getElem?_map, List.getElem?_range hj]
      rfl

theorem flatMap_range_map_index (a b : Nat) :
    (List.range a).flatMap (fun i => (List.range b).map (fun j => i * b + j + 1)) =
      (List.range (a * b)).map (fun t => t + 1) := by
  induction a with
  | zero => simp
  | succ a ih =>
    rw [List.range_succ, List.flatMap_append, ih, Nat.succ_mul, List.range_add,
      List.map_append]
    simp only [List.flatMap_cons, List.flatMap_nil, List.append_nil, List.map_map]
    congr 1

/-! ## Lemmas: the sheet filter as filter-then-map -/

theorem filterMap_eq_filter_map {α β : Type} (f : α → Option β) (p : α → Bool)
    (g : α → β) (h : ∀ a, f a = if p a then some (g a) else none) :
    ∀ l : List α, l.filterMap f = (l.filter p).map g := by
  intro l
  induction l with
  | nil => rfl
  | cons a l ih =>
    rw [List.filterMap_cons, List.filter_cons, h a]
    by_cases hpa : p a
    · simp [hpa, ih]
    · simp [hpa, ih]

theorem filter_valid_sheets_fst (allClouds : List Cloud) (allSheets : List Sheet)
    (allRevisions : List Revision) :
    (filter_valid_sheets_and_show_count allClouds allSheets allRevisions).1 =
      (allSheets.filter (eligibleSheet allClouds)).map (mkRevisedSheet allClouds) := by
  unfold filter_valid_sheets_and_show_count
  dsimp only
  apply filterMap_eq_filter_map
  intro sheet
  dsimp only
  unfold eligibleSheet
  cases hflag : sheet.appearsInSheetList with
  | none => simp
  | some v =>
    by_cases hv : v = 1
    · subst hv
      simp only [mkRevisedSheet, RevisedSheet.rev_count, ne_eq, not_true_eq_false,
        if_false, decide_True, Bool.true_and]
      cases hvp : sheet.viewportViewIds with
      | nil => simp
      | cons a as =>
        cases hrv : findRevIds allClouds sheet with
        | nil => simp [hrv]
        | cons b bs => simp [hrv]
    · have hne : (some v : Option Int) ≠ some 1 := by
        intro h
        exact hv (Option.some.inj h)
      simp [hv, hne]

/-! ## Claim C5: the sheet-revision association set -/

/-- C5: for every sheet, the derived revision-identifier set equals the
union of (a) the target revision of every revision cloud whose owner view
is the sheet itself or the view of any viewport placed on the sheet, and
(b) every revision identifier explicitly attached to the sheet via its
additional-revisions list; duplicates collapse (the set is duplicate
free), and a revision attached via the additional list alone — even with
no cloud at all — is still a member. -/
theorem C5_association_set (allClouds : List Cloud) (s : Sheet) :
    (∀ rid : Nat, rid ∈ (mkRevisedSheet allClouds s).revIds ↔
      ((∃ c ∈ allClouds,
          (c.ownerViewId = s.id ∨ c.ownerViewId ∈ s.viewportViewIds) ∧
          c.revisionId = rid) ∨
        rid ∈ s.additionalRevisionIds)) ∧
    (mkRevisedSheet allClouds s).revIds.Nodup := by
  constructor
  · intro rid
    simp only [mkRevisedSheet, findRevIds, mem_firstDedup, List.mem_append,
      List.mem_map, List.mem_filter, findClouds]
    constructor
    · rintro (⟨c, ⟨hc, hview⟩, hrid⟩ | h)
      · refine Or.inl ⟨c, hc, ?_, hrid⟩
        have hmem : c.ownerViewId ∈ s.id :: s.viewportViewIds := by
          simpa using hview
        exact List.mem_cons.mp hmem
      · exact Or.inr h
    · rintro (⟨c, hc, hview, hrid⟩ | h)
      · refine Or.inl ⟨c, ⟨hc, ?_⟩, hrid⟩
        have hmem : c.ownerViewId ∈ s.id :: s.viewportViewIds :=
          List.mem_cons.mpr hview
        simpa using hmem
      · exact Or.inr h
  · exact nodup_firstDedup _

/-! ## Claim C2: the revision date filter -/

/-- C2: a revision of the model appears in the final ordered revision
sequence (as its record) iff its identifier is assigned to at least one
included sheet and its resolved date string matches
`^\d{1,2}[./]\d{1,2}[./]\d{2,4}$`; moreover every record of the output
stems from an assigned revision, so a revision not assigned to any
included sheet never appears. -/
theorem C2_date_filter (allRevisions : List Revision)
    (revisedSheets : List RevisedSheet) (rev : Revision)
    (hrev : rev ∈ allRevisions) :
    ((⟨rev.id, get_rev_number rev none, rev.revisionDate, rev.description⟩ :
        RevRecord) ∈ build_filtered_rev_data allRevisions revisedSheets ↔
      (rev.id ∈ assignedIds revisedSheets ∧
        matchesDatePattern rev.revisionDate = true)) ∧
    ∀ rec ∈ build_filtered_rev_data allRevisions revisedSheets,
      rec.revId ∈ assignedIds revisedSheets := by
  unfold build_filtered_rev_data
  constructor
  · rw [(sortByKey_perm cvLE (fun r : RevRecord => r.num)
      (preSortRevData allRevisions revisedSheets)).mem_iff]
    constructor
    · intro hmem
      rcases List.mem_filterMap.mp hmem with ⟨rev', _, hres⟩
      unfold revRecordOf at hres
      by_cases hc : (assignedIds revisedSheets).contains rev'.id
      · rw [if_pos hc] at hres
        by_cases hd : matchesDatePattern rev'.revisionDate
        · rw [if_pos hd] at hres
          have hfields := Option.some.inj hres
          have hid : rev'.id = rev.id := congrArg RevRecord.revId hfields
          have hdate : rev'.revisionDate = rev.revisionDate :=
            congrArg RevRecord.dateStr hfields
          refine ⟨?_, by rw [← hdate]; exact hd⟩
          rw [← hid]
          simpa using hc
        · rw [if_neg hd] at hres
          exact absurd hres (by simp)
      · rw [if_neg hc] at hres
        exact absurd hres (by simp)
    · rintro ⟨hass, hdate⟩
      refine List.mem_filterMap.mpr ⟨rev, hrev, ?_⟩
      unfold revRecordOf
      rw [if_pos (by simpa using hass), if_pos hdate]
  · intro rec hrec
    have hmem := (sortByKey_perm cvLE (fun r : RevRecord => r.num)
      (preSortRevData allRevisions revisedSheets)).mem_iff.mp hrec
    rcases List.mem_filterMap.mp hmem with ⟨rev', _, hres⟩
    unfold revRecordOf at hres
    by_cases hc : (assignedIds revisedSheets).contains rev'.id
    · rw [if_pos hc] at hres
      by_cases hd : matchesDatePattern rev'.revisionDate
      · rw [if_pos hd] at hres
        have hid : rev'.id = rec.revId := congrArg RevRecord.revId (Option.some.inj hres)
        rw [← hid]
        simpa using hc
      · rw [if_neg hd] at hres
        exact absurd hres (by simp)
    · rw [if_neg hc] at hres
      exact absurd hres (by simp)

/-- C2 witness: the date filter applied to the witness model's first
revision, which is assigned and has a valid date. -/
theorem C2_date_filter_witness :
    ((⟨revW1.id, get_rev_number revW1 none, revW1.revisionDate,
        revW1.description⟩ : RevRecord) ∈
        build_filtered_rev_data mdlW.revisions [rsW] ↔
      (revW1.id ∈ assignedIds [rsW] ∧
        matchesDatePattern revW1.revisionDate = true)) ∧
    ∀ rec ∈ build_filtered_rev_data mdlW.revisions [rsW],
      rec.revId ∈ assignedIds [rsW] :=
  C2_date_filter mdlW.revisions [rsW] revW1 (by decide)

/-! ## Claim C6: the revision sort is ascending and stable -/

/-- C6: the filtered revision sequence is sorted ascending by the raw
display number (under the Python value ordering `cvLE`), it is a
permutation of the pre-sort discovery-order list, and the sort is stable:
for every key, the records carrying that display number appear in exactly
their discovery order. -/
theorem C6_sorted_stable (allRevisions : List Revision)
    (revisedSheets : List RevisedSheet) :
    (build_filtered_rev_data allRevisions revisedSheets).Pairwise
      (fun a b => cvLE a.num b.num = true) ∧
    (build_filtered_rev_data allRevisions revisedSheets).Perm
      (preSortRevData allRevisions revisedSheets) ∧
    ∀ k : CellValue,
      (build_filtered_rev_data allRevisions revisedSheets).filter
          (fun r => r.num = k) =
        (preSortRevData allRevisions revisedSheets).filter
          (fun r => r.num = k) := by
  unfold build_filtered_rev_data
  refine ⟨?_, ?_, ?_⟩
  · exact pairwise_sortByKey cvLE (fun r : RevRecord => r.num) cvLE_trans cvLE_total _
  · exact sortByKey_perm cvLE (fun r : RevRecord => r.num) _
  · intro k
    refine filter_sortByKey cvLE (fun r : RevRecord => r.num) _ ?_ _
    intro a b ha hb
    have ha' : a.num = k := by simpa using ha
    have hb' : b.num = k := by simpa using hb
    show cvLE a.num b.num = true
    rw [ha', hb']
    exact cvLE_refl k

/-- C5 witness: the association set of the witness sheet, whose three
revisions come from its additional-revisions list alone (no clouds). -/
theorem C5_association_set_witness :
    (∀ rid : Nat, rid ∈ (mkRevisedSheet mdlW.clouds sheetW).revIds ↔
      ((∃ c ∈ mdlW.clouds,
          (c.ownerViewId = sheetW.id ∨ c.ownerViewId ∈ sheetW.viewportViewIds) ∧
          c.revisionId = rid) ∨
        rid ∈ sheetW.additionalRevisionIds)) ∧
    (mkRevisedSheet mdlW.clouds sheetW).revIds.Nodup :=
  C5_association_set mdlW.clouds sheetW

/-- C6 witness: sortedness, permutation and stability of the witness
model's filtered revision data. -/
theorem C6_sorted_stable_witness :
    (build_filtered_rev_data mdlW.revisions [rsW]).Pairwise
      (fun a b => cvLE a.num b.num = true) ∧
    (build_filtered_rev_data mdlW.revisions [rsW]).Perm
      (preSortRevData mdlW.revisions [rsW]) ∧
    ∀ k : CellValue,
      (build_filtered_rev_data mdlW.revisions [rsW]).filter
          (fun r => r.num = k) =
        (preSortRevData mdlW.revisions [rsW]).filter (fun r => r.num = k) :=
  C6_sorted_stable mdlW.revisions [rsW]

/-! ## Claim C4 (amended): sheet eligibility -/

/-- C4 (amended): a sheet is included in the report iff its
"Appears In Sheet List" parameter is present with the integer value 1
(not merely truthy), it has at least one placed viewport, and its derived
revision-identifier set is non-empty; ineligible sheets are dropped
silently (the result is exactly the filtered-and-wrapped list, so nothing
else is emitted), the reported total is the model's revision count, and
the included list keeps the upstream ascending sheet-number order. -/
theorem C4_sheet_filter (allClouds : List Cloud) (allSheets : List Sheet)
    (allRevisions : List Revision)
    (hsorted : allSheets.Pairwise (fun a b => a.sheetNumber ≤ b.sheetNumber)) :
    (filter_valid_sheets_and_show_count allClouds allSheets allRevisions).1 =
      (allSheets.filter (eligibleSheet allClouds)).map (mkRevisedSheet allClouds) ∧
    (filter_valid_sheets_and_show_count allClouds allSheets allRevisions).2 =
      allRevisions.length ∧
    ((filter_valid_sheets_and_show_count allClouds allSheets allRevisions).1.map
        (fun rs => rs.sheet)).Pairwise
      (fun a b => a.sheetNumber ≤ b.sheetNumber) := by
  refine ⟨filter_valid_sheets_fst allClouds allSheets allRevisions, rfl, ?_⟩
  rw [filter_valid_sheets_fst allClouds allSheets allRevisions, List.map_map]
  have hcomp : ((fun rs : RevisedSheet => rs.sheet) ∘ mkRevisedSheet allClouds) =
      fun s : Sheet => s := rfl
  rw [hcomp, List.map_id']
  exact hsorted.filter _

/-- C4 witness: the amended theorem applied to the concrete witness model,
whose single sheet is eligible. -/
theorem C4_sheet_filter_witness :
    (filter_valid_sheets_and_show_count mdlW.clouds mdlW.sheets mdlW.revisions).1 =
      (mdlW.sheets.filter (eligibleSheet mdlW.clouds)).map
        (mkRevisedSheet mdlW.clouds) ∧
    (filter_valid_sheets_and_show_count mdlW.clouds mdlW.sheets mdlW.revisions).2 =
      mdlW.revisions.length ∧
    ((filter_valid_sheets_and_show_count mdlW.clouds mdlW.sheets
          mdlW.revisions).1.map (fun rs => rs.sheet)).Pairwise
      (fun a b => a.sheetNumber ≤ b.sheetNumber) :=
  C4_sheet_filter mdlW.clouds mdlW.sheets mdlW.revisions (by decide)

/-- C4 counterexample: a sheet whose "Appears In Sheet List" value is 2 —
a truthy integer — with a placed viewport and a non-empty derived
revision set is nevertheless excluded, because the code tests
`AsInteger() != 1`, not truthiness. -/
theorem C4_counterexample :
    sheetC4.appearsInSheetList = some 2 ∧ (2 : Int) ≠ 0 ∧
    sheetC4.viewportViewIds ≠ [] ∧ findRevIds [] sheetC4 ≠ [] ∧
    (filter_valid_sheets_and_show_count [] [sheetC4] []).1 = [] := by decide

/-! ## Claim C8 (amended): drawing-number composition -/

/-- C8 (amended): the composed drawing number is the hyphen-join of the
stripped values of those attributes that are present and non-empty
before stripping.  Provided no looked-up attribute is whitespace-only,
this equals the claim's composition — the hyphen-join of exactly the
non-empty trimmed values, with no double hyphen; a whitespace-only
attribute, however, contributes an empty segment (see the
counterexample). -/
theorem C8_drawing_number (m : Model) (s : Sheet)
    (hclean : ∀ pname ∈ drawingParamNames,
      ∀ v ∈ (lookupDrawingParam m s pname).toList, strip v = "" → v = "") :
    get_drawing_number m s = specDrawingNumber m s := by
  unfold get_drawing_number specDrawingNumber
  congr 1
  apply List.filterMap_congr
  intro pname hp
  cases hlook : lookupDrawingParam m s pname with
  | none => rfl
  | some v =>
    dsimp only
    by_cases hv : v = ""
    · subst hv
      rfl
    · have hst : strip v ≠ "" := by
        intro hs
        exact hv (hclean pname hp v (by rw [hlook]; simp) hs)
      rw [if_neg hv, if_neg hst]

/-- C8 witness: on the claim's example attributes
`["100", "", "B", "L2", "", "", "S01"]` the code and the claim agree and
produce `"100-B-L2-S01"`. -/
theorem C8_drawing_number_witness :
    get_drawing_number modelC8 sheetC8 = specDrawingNumber modelC8 sheetC8 ∧
    specDrawingNumber modelC8 sheetC8 = "100-B-L2-S01" :=
  ⟨C8_drawing_number modelC8 sheetC8 (by decide), by decide⟩

/-- C8 counterexample: a whitespace-only zone code is truthy before
stripping, so the code appends its stripped (empty) value and produces
`"100--S01"` — a double hyphen — while the claim's composition of
non-empty trimmed values gives `"100-S01"`. -/
theorem C8_counterexample :
    get_drawing_number modelC8bad sheetC8bad = "100--S01" ∧
    specDrawingNumber modelC8bad sheetC8bad = "100-S01" ∧
    ("100--S01" : String) ≠ "100-S01" := by decide

/-! ## Claim C9: the intersection-cell invariant -/

/-- C9: within one page, no two distinct revisions of a sheet are ever
written to the same cell: each revision identifier resolves to at most
one column index in the page's revision chunk (`revIndexOf` is a
function into `Option`), distinct identifiers with resolved indices get
distinct spreadsheet cells because the column-name function is
injective, and every label write of a sheet's row sits at the cell of
the revision that produced it. -/
theorem C9_cell_invariant (revChunk : List RevRecord) (row : Nat)
    (rid1 rid2 j1 j2 : Nat)
    (h1 : revIndexOf rid1 revChunk = some j1)
    (h2 : revIndexOf rid2 revChunk = some j2)
    (hne : rid1 ≠ rid2) :
    ((excel_col_name (3 + j1), row) : String × Nat) ≠
      (excel_col_name (3 + j2), row) ∧
    ∀ (m : Model) (rs : RevisedSheet) (w : Write),
      w ∈ sheetLabelWrites m revChunk row rs →
      ∃ rev j, rev ∈ chunkRevs m revChunk rs ∧
        revIndexOf rev.id revChunk = some j ∧
        w.col = excel_col_name (3 + j) ∧ w.row = row := by
  constructor
  · intro hcell
    have hcol : excel_col_name (3 + j1) = excel_col_name (3 + j2) :=
      congrArg Prod.fst hcell
    have hj : j1 = j2 := by
      have := excel_col_name_inj hcol
      omega
    subst hj
    exact hne (revIndexOf_inj h1 h2)
  · intro m rs w hw
    rcases mem_sheetLabelWrites hw with ⟨rev, k, j, sid, hk, hj, hmem, hform⟩
    exact ⟨rev, j, hmem, hj, by rw [hform], by rw [hform]⟩

/-- C9 witness: the invariant applied to a concrete two-revision chunk,
where ids 1 and 2 resolve to columns D and E of row 10. -/
theorem C9_cell_invariant_witness :
    ((excel_col_name (3 + 0), 10) : String × Nat) ≠ (excel_col_name (3 + 1), 10) ∧
    ∀ (m : Model) (rs : RevisedSheet) (w : Write),
      w ∈ sheetLabelWrites m chunkW 10 rs →
      ∃ rev j, rev ∈ chunkRevs m chunkW rs ∧
        revIndexOf rev.id chunkW = some j ∧
        w.col = excel_col_name (3 + j) ∧ w.row = 10 :=
  C9_cell_invariant chunkW 10 1 2 0 1 (by decide) (by decide) (by decide)

/-! ## Claim C10: untouched cells -/

/-- C10: for a page's sheet block and revision chunk, the intersection
cell of the i-th sheet and the j-th chunk revision is never written when
that revision's identifier is not in the sheet's association set — no
write of `fill_sheet_block_chunk` targets that (column, row), so
pre-existing template content there persists. -/
theorem C10_untouched_cells (m : Model) (sheetBlock : List RevisedSheet)
    (revChunk : List RevRecord) (i j : Nat) (rs : RevisedSheet) (rec : RevRecord)
    (hs : sheetBlock[i]? = some rs) (hr : revChunk[j]? = some rec)
    (hnot : rec.revId ∉ rs.revIds) :
    ∀ w ∈ fill_sheet_block_chunk m sheetBlock revChunk,
      ¬ (w.col = excel_col_name (3 + j) ∧ w.row = 10 + i) := by
  intro w hw hcell
  rcases hcell with ⟨hcol, hrow⟩
  rcases mem_fillSheetRows m revChunk sheetBlock 0 w hw with ⟨k, rs', hk, hw'⟩
  have hrowk : w.row = 10 + (0 + k) := mem_sheetRowWrites hw'
  have hki : k = i := by omega
  subst hki
  have hrs : rs' = rs := by
    rw [hs] at hk
    exact (Option.some.inj hk).symm
  subst hrs
  simp only [sheetRowWrites, List.mem_cons] at hw'
  rcases hw' with rfl | rfl | hw''
  · have hA : excel_col_name 0 = excel_col_name (3 + j) := by
      rw [show excel_col_name 0 = "A" by decide]
      exact hcol
    have := excel_col_name_inj hA
    omega
  · have hB : excel_col_name 1 = excel_col_name (3 + j) := by
      rw [show excel_col_name 1 = "B" by decide]
      exact hcol
    have := excel_col_name_inj hB
    omega
  · rcases mem_sheetLabelWrites hw'' with ⟨rev, k', j', sid, hk', hj', hmem, hform⟩
    have hcol' : excel_col_name (3 + j') = excel_col_name (3 + j) := by
      rw [hform] at hcol
      exact hcol
    have hjj : j' = j := by
      have := excel_col_name_inj hcol'
      omega
    subst hjj
    rcases revIndexOf_spec rev.id revChunk j' hj' with ⟨rec', hrec', hid⟩
    rw [hr] at hrec'
    have hrec : rec = rec' := Option.some.inj hrec'
    have hin := (mem_chunkRevs hmem).1
    apply hnot
    rw [hrec, hid]
    exact hin

/-- C10 witness: in the witness model, chunk revision 99 (index 0) is
assigned to no sheet, so the drawing-number write of the single-sheet
block does not target that revision's column D cell in row 10. -/
theorem C10_untouched_cells_witness :
    ¬ ((⟨"A", 10, CellValue.str (get_drawing_number mdlW sheetW)⟩ : Write).col =
        excel_col_name (3 + 0) ∧
      (⟨"A", 10, CellValue.str (get_drawing_number mdlW sheetW)⟩ : Write).row =
        10 + 0) :=
  C10_untouched_cells mdlW [rsW] [recX] 0 0 rsW recX (by decide) (by decide)
    (by decide) ⟨"A", 10, CellValue.str (get_drawing_number mdlW sheetW)⟩
    (by decide)

/-! ## Claim C7 (amended): the non-numeric label fallback -/

/-- C7 (amended): for a revision whose numbering sequence does not
resolve to a Numeric-type sequence, the rendered label is
`get_rev_number(rev)` called without a sheet argument: the revision's
own stored number when present, else its raw global sequence number.
The per-sheet branch of the resolver exists but is never taken at the
render call site, because no sheet is passed there (see the
counterexample). -/
theorem C7_fallback_label (m : Model) (rev : Revision) (seqIdx : Nat)
    (hseq : ∀ sq ∈ (m.getSequence rev.numberingSequenceId).toList,
      sq.numberType ≠ RevNumberType.Numeric) :
    revLabel m rev seqIdx = get_rev_number rev none ∧
    get_rev_number rev none =
      (match rev.revisionNumber with
       | some n => CellValue.str n
       | none => CellValue.num rev.sequenceNumber) := by
  constructor
  · unfold revLabel
    cases hsq : m.getSequence rev.numberingSequenceId with
    | none => rfl
    | some sq =>
      have hne := hseq sq (by rw [hsq]; simp)
      dsimp only
      rw [if_neg hne]
  · rfl

/-- C7 witness: the fallback applied in the C7 model, where the sequence
is Alphanumeric. -/
theorem C7_fallback_label_witness :
    revLabel mdlN revN 1 = get_rev_number revN none ∧
    get_rev_number revN none =
      (match revN.revisionNumber with
       | some n => CellValue.str n
       | none => CellValue.num revN.sequenceNumber) :=
  C7_fallback_label mdlN revN 1 (by decide)

/-- C7 counterexample: revision 21 on sheet N has an available per-sheet
revision number "7", its own stored number is "3", and its sequence is
not Numeric; the claim's priority chain would render "7", but the code
renders "3" — the per-sheet number is never consulted because the
render-time call passes no sheet. -/
theorem C7_counterexample :
    get_rev_number revN (some sheetN) = CellValue.str "7" ∧
    revN.revisionNumber = some "3" ∧
    mdlN.getSequence revN.numberingSequenceId = some seqN ∧
    seqN.numberType ≠ RevNumberType.Numeric ∧
    revN.id ∈ rsN.revIds ∧
    (⟨"D", 10, CellValue.str "3"⟩ : Write) ∈
      fill_sheet_block_chunk mdlN [rsN]
        (build_filtered_rev_data mdlN.revisions [rsN]) ∧
    (∀ w ∈ fill_sheet_block_chunk mdlN [rsN]
        (build_filtered_rev_data mdlN.revisions [rsN]),
      w.val ≠ CellValue.str "7") ∧
    CellValue.str "3" ≠ CellValue.str "7" := by decide

/-! ## Claim C1 (amended): numeric-sequence labels -/

/-- C1 (amended): for a revision of a sheet's association set whose
sequence resolves to a Numeric-type sequence and that lies in the current
page's revision chunk, the rendered label is
`prefix ++ zfill (startNumber + position - 1) minimumDigits ++ suffix`
where `position` is the revision's 1-based rank, by ascending global
sequence number, among the revisions of the sheet's association set
that share its numbering sequence **and lie in the current revision
chunk** (`chunkPosition`) — not among all same-sequence revisions of the
association set (see the counterexample); the write lands in the column
of the revision's chunk index. -/
theorem C1_numeric_label (m : Model) (revChunk : List RevRecord) (row : Nat)
    (rs : RevisedSheet) (rev : Revision) (sq : NumberingSequence) (j : Nat)
    (hrev : rev ∈ chunkRevs m revChunk rs)
    (hsq : m.getSequence rev.numberingSequenceId = some sq)
    (htype : sq.numberType = RevNumberType.Numeric)
    (hj : revIndexOf rev.id revChunk = some j)
    (hnd : (chunkRevs m revChunk rs).Pairwise
      (fun a b => a.sequenceNumber ≠ b.sequenceNumber)) :
    (⟨excel_col_name (3 + j), row,
        CellValue.str (numericLabel sq.settings (chunkPosition m revChunk rs rev))⟩ :
      Write) ∈ sheetLabelWrites m revChunk row rs := by
  have hsorted : (chunkRevs m revChunk rs).Pairwise
      (fun a b => decide (a.sequenceNumber ≤ b.sequenceNumber) = true) := by
    unfold chunkRevs
    exact pairwise_sortByKey (fun x y : Nat => decide (x ≤ y))
      (fun r : Revision => r.sequenceNumber)
      (by intro a b c hab hbc; simp only [decide_eq_true_eq] at hab hbc ⊢; omega)
      (by
        intro a b
        rcases le_total a b with h | h
        · exact Or.inl (by simpa using h)
        · exact Or.inr (by simpa using h)) _
  have hlt : (chunkRevs m revChunk rs).Pairwise
      (fun a b => a.sequenceNumber < b.sequenceNumber) := by
    refine (hsorted.and hnd).imp ?_
    intro a b hab
    exact lt_of_le_of_ne (by simpa using hab.1) hab.2
  have hgrp_lt := hlt.filter
    (fun r => decide (r.numberingSequenceId = rev.numberingSequenceId))
  have hrevgrp : rev ∈ (chunkRevs m revChunk rs).filter
      (fun r => r.numberingSequenceId = rev.numberingSequenceId) :=
    List.mem_filter.mpr ⟨hrev, by simp⟩
  have hidx := sorted_strict_getElem (fun r => r.sequenceNumber) _ hgrp_lt rev hrevgrp
  have hwrite := groupLabelWrites_mem m revChunk row _ 1 _ rev j hidx hj
  have hlabel : revLabel m rev
      (1 + (((chunkRevs m revChunk rs).filter
          (fun r => r.numberingSequenceId = rev.numberingSequenceId)).filter
        (fun r => decide (r.sequenceNumber < rev.sequenceNumber))).length) =
      CellValue.str (numericLabel sq.settings (chunkPosition m revChunk rs rev)) := by
    unfold revLabel chunkPosition
    rw [hsq]
    dsimp only
    rw [if_pos htype]
  have hsid : rev.numberingSequenceId ∈
      firstDedup ((chunkRevs m revChunk rs).map (fun r => r.numberingSequenceId)) :=
    (mem_firstDedup _ _).mpr (List.mem_map_of_mem _ hrev)
  unfold sheetLabelWrites
  refine List.mem_flatMap.mpr ⟨rev.numberingSequenceId, hsid, ?_⟩
  rw [← hlabel]
  exact hwrite

/-- C1 witness: in the witness model — sequence
`{prefix="A", suffix="", start=1, digits=2}` and three revisions created
in the order 12, 11, 10 — revision 11 (chunk index 1, second by sequence
number) receives the rendered label of its chunk position. -/
theorem C1_numeric_label_witness :
    (⟨excel_col_name (3 + 1), 10,
        CellValue.str (numericLabel seqW.settings
          (chunkPosition mdlW (build_filtered_rev_data mdlW.revisions [rsW]) rsW
            revW2))⟩ : Write) ∈
      sheetLabelWrites mdlW (build_filtered_rev_data mdlW.revisions [rsW]) 10 rsW ∧
    numericLabel seqW.settings
      (chunkPosition mdlW (build_filtered_rev_data mdlW.revisions [rsW]) rsW revW2) =
      "A02" :=
  ⟨C1_numeric_label mdlW (build_filtered_rev_data mdlW.revisions [rsW]) 10 rsW
    revW2 seqW 1 (by decide) (by decide) (by decide) (by decide) (by decide),
   by decide⟩

/-- C1 counterexample: sheet C's association set holds revisions 1 and 2
of the same Numeric sequence, but revision 1 has a malformed date and is
dropped from the chunk.  The claim ranks revision 2 second among the
association set's same-sequence revisions and predicts label "A02", yet
the code writes "A01" at its cell and writes "A02" nowhere. -/
theorem C1_counterexample :
    revC2.id ∈ rsC.revIds ∧
    mdlC.getSequence revC2.numberingSequenceId = some seqW ∧
    seqW.numberType = RevNumberType.Numeric ∧
    claimPosition mdlC rsC revC2 = 2 ∧
    numericLabel seqW.settings (claimPosition mdlC rsC revC2) = "A02" ∧
    revIndexOf revC2.id (build_filtered_rev_data mdlC.revisions [rsC]) = some 0 ∧
    (⟨excel_col_name (3 + 0), 10, CellValue.str "A01"⟩ : Write) ∈
      fill_sheet_block_chunk mdlC [rsC]
        (build_filtered_rev_data mdlC.revisions [rsC]) ∧
    (∀ w ∈ fill_sheet_block_chunk mdlC [rsC]
        (build_filtered_rev_data mdlC.revisions [rsC]),
      w.val ≠ CellValue.str "A02") ∧
    ("A01" : String) ≠ "A02" := by decide

/-! ## Claim C3: the chunk partitioner -/

/-- C3: with capacities 50 revisions and 27 sheets per page, the
partitioner produces exactly the ceiling numbers of revision and sheet
blocks (`numChunks` is the least block count whose capacity covers the
list), the concatenation of the blocks restores the filtered revision
sequence and the sheet list, exactly
`revision blocks × sheet blocks` pages are produced, their 1-based
worksheet indices are `rc * num_sheet_blocks + sc + 1` enumerated in
row-major order, and the page at flat index `rc * num_sheet_blocks + sc`
carries precisely the header writes of revision block `rc` and the body
writes of sheet block `sc` against revision block `rc`. -/
theorem C3_chunk_partitioner (m : Model) (allRevisions : List Revision)
    (revisedSheets : List RevisedSheet) :
    (build_filtered_rev_data allRevisions revisedSheets).length ≤
      numChunks (build_filtered_rev_data allRevisions revisedSheets).length 50 * 50 ∧
    (∀ mm : Nat,
      (build_filtered_rev_data allRevisions revisedSheets).length ≤ mm * 50 →
      numChunks (build_filtered_rev_data allRevisions revisedSheets).length 50 ≤ mm) ∧
    revisedSheets.length ≤ numChunks revisedSheets.length 27 * 27 ∧
    (∀ mm : Nat, revisedSheets.length ≤ mm * 27 →
      numChunks revisedSheets.length 27 ≤ mm) ∧
    (List.range (numChunks
        (build_filtered_rev_data allRevisions revisedSheets).length 50)).flatMap
      (fun rc => sliceChunk (build_filtered_rev_data allRevisions revisedSheets) 50 rc) =
      build_filtered_rev_data allRevisions revisedSheets ∧
    (List.range (numChunks revisedSheets.length 27)).flatMap
      (fun sc => sliceChunk revisedSheets 27 sc) = revisedSheets ∧
    (fill_all_chunks m allRevisions revisedSheets 50 27).length =
      numChunks (build_filtered_rev_data allRevisions revisedSheets).length 50 *
        numChunks revisedSheets.length 27 ∧
    (fill_all_chunks m allRevisions revisedSheets 50 27).map (fun p => p.wsIndex) =
      (List.range
        (numChunks (build_filtered_rev_data allRevisions revisedSheets).length 50 *
          numChunks revisedSheets.length 27)).map (fun t => t + 1) ∧
    ∀ rc sc : Nat,
      rc < numChunks (build_filtered_rev_data allRevisions revisedSheets).length 50 →
      sc < numChunks revisedSheets.length 27 →
      (fill_all_chunks m allRevisions revisedSheets 50 27)[rc *
          numChunks revisedSheets.length 27 + sc]? =
        some ⟨rc * numChunks revisedSheets.length 27 + sc + 1,
          fill_revision_header_chunk
            (sliceChunk (build_filtered_rev_data allRevisions revisedSheets) 50 rc),
          fill_sheet_block_chunk m (sliceChunk revisedSheets 27 sc)
            (sliceChunk (build_filtered_rev_data allRevisions revisedSheets) 50 rc)⟩ := by
  refine ⟨?_, ?_, ?_, ?_, ?_, ?_, ?_, ?_, ?_⟩
  · unfold numChunks
    omega
  · intro mm h
    unfold numChunks
    omega
  · unfold numChunks
    omega
  · intro mm h
    unfold numChunks
    omega
  · exact chunks_join 50 (by decide) _
  · exact chunks_join 27 (by decide) _
  · unfold fill_all_chunks
    exact flatMap_range_map_length _ _ _
  · unfold fill_all_chunks
    rw [List.map_flatMap]
    calc (List.range (numChunks
          (build_filtered_rev_data allRevisions revisedSheets).length 50)).flatMap
          (fun rc => ((List.range (numChunks revisedSheets.length 27)).map
            (fun sc => (⟨rc * numChunks revisedSheets.length 27 + sc + 1,
              fill_revision_header_chunk
                (sliceChunk (build_filtered_rev_data allRevisions revisedSheets) 50 rc),
              fill_sheet_block_chunk m (sliceChunk revisedSheets 27 sc)
                (sliceChunk (build_filtered_rev_data allRevisions revisedSheets) 50
                  rc)⟩ : PageFill))).map (fun p => p.wsIndex))
        = (List.range (numChunks
            (build_filtered_rev_data allRevisions revisedSheets).length 50)).flatMap
          (fun rc => (List.range (numChunks revisedSheets.length 27)).map
            (fun sc => rc * numChunks revisedSheets.length 27 + sc + 1)) := by
          apply List.flatMap_congr
          intro rc _
          rw [List.map_map]
          rfl
      _ = _ := flatMap_range_map_index _ _
  · intro rc sc hrc hsc
    unfold fill_all_chunks
    exact flatMap_range_map_getElem
      (fun rc sc => (⟨rc * numChunks revisedSheets.length 27 + sc + 1,
        fill_revision_header_chunk
          (sliceChunk (build_filtered_rev_data allRevisions revisedSheets) 50 rc),
        fill_sheet_block_chunk m (sliceChunk revisedSheets 27 sc)
          (sliceChunk (build_filtered_rev_data allRevisions revisedSheets) 50
            rc)⟩ : PageFill)) _ _ rc sc hrc hsc

/-- C3 witness: the partitioner contract instantiated on the witness
model (three filtered revisions, one sheet, one page). -/
theorem C3_chunk_partitioner_witness :
    (build_filtered_rev_data mdlW.revisions [rsW]).length ≤
      numChunks (build_filtered_rev_data mdlW.revisions [rsW]).length 50 * 50 ∧
    (∀ mm : Nat,
      (build_filtered_rev_data mdlW.revisions [rsW]).length ≤ mm * 50 →
      numChunks (build_filtered_rev_data mdlW.revisions [rsW]).length 50 ≤ mm) ∧
    ([rsW] : List RevisedSheet).length ≤
      numChunks ([rsW] : List RevisedSheet).length 27 * 27 ∧
    (∀ mm : Nat, ([rsW] : List RevisedSheet).length ≤ mm * 27 →
      numChunks ([rsW] : List RevisedSheet).length 27 ≤ mm) ∧
    (List.range (numChunks
        (build_filtered_rev_data mdlW.revisions [rsW]).length 50)).flatMap
      (fun rc => sliceChunk (build_filtered_rev_data mdlW.revisions [rsW]) 50 rc) =
      build_filtered_rev_data mdlW.revisions [rsW] ∧
    (List.range (numChunks ([rsW] : List RevisedSheet).length 27)).flatMap
      (fun sc => sliceChunk ([rsW] : List RevisedSheet) 27 sc) =
      ([rsW] : List RevisedSheet) ∧
    (fill_all_chunks mdlW mdlW.revisions [rsW] 50 27).length =
      numChunks (build_filtered_rev_data mdlW.revisions [rsW]).length 50 *
        numChunks ([rsW] : List RevisedSheet).length 27 ∧
    (fill_all_chunks mdlW mdlW.revisions [rsW] 50 27).map (fun p => p.wsIndex) =
      (List.range
        (numChunks (build_filtered_rev_data mdlW.revisions [rsW]).length 50 *
          numChunks ([rsW] : List RevisedSheet).length 27)).map (fun t => t + 1) ∧
    ∀ rc sc : Nat,
      rc < numChunks (build_filtered_rev_data mdlW.revisions [rsW]).length 50 →
      sc < numChunks ([rsW] : List RevisedSheet).length 27 →
      (fill_all_chunks mdlW mdlW.revisions [rsW] 50 27)[rc *
          numChunks ([rsW] : List RevisedSheet).length 27 + sc]? =
        some ⟨rc * numChunks ([rsW] : List RevisedSheet).length 27 + sc + 1,
          fill_revision_header_chunk
            (sliceChunk (build_filtered_rev_data mdlW.revisions [rsW]) 50 rc),
          fill_sheet_block_chunk mdlW (sliceChunk ([rsW] : List RevisedSheet) 27 sc)
            (sliceChunk (build_filtered_rev_data mdlW.revisions [rsW]) 50 rc)⟩ :=
  C3_chunk_partitioner mdlW mdlW.revisions [rsW]

end EWiz
